import Mathlib

/- Verification development for the RYG reaction-time test component
   (Svelte single-file component): data model, stats engine, histogram,
   keyboard/gate state machine and local persistence, embedded shallowly.
   Timestamps and reaction times are modelled as rationals (JS floats carry
   fractional milliseconds from performance.now); counters as naturals. -/

/- `type Color = 'R' | 'Y' | 'G'` -/
inductive Color where
  | R
  | Y
  | G
deriving DecidableEq, Repr

/- `type Phase = 'idle' | 'armed' | 'awaiting_L' | 'stimulus_on' | 'finished'` -/
inductive Phase where
  | idle
  | armed
  | awaiting_L
  | stimulus_on
  | finished
deriving DecidableEq, Repr

/-- Source `type Trial` from the source. Optional TS fields become `Option`;
`missed?: boolean` is read by the code with a truthiness test, so an absent
value behaves as `false` and is modelled as `Bool`. -/
structure Trial where
  color : Color
  onset : ℚ
  respondedAt : Option ℚ
  rt : Option ℚ
  correct : Bool
  premature : Bool
  wrongKey : Option String
  missed : Bool
deriving DecidableEq, Repr

/- Configuration constants from the source. -/
def TEST_DURATION_MS : ℚ := 60000
def L_HOLD_MS : ℚ := 200
def MAX_RT_MS : ℚ := 5000
def KEY_DEBOUNCE_MS : ℚ := 100

/-- Source `function avg(arr)`: JS returns NaN on an empty array; every caller in the
source guards on nonemptiness before using the value, so the empty case is
represented by the (never observed) value 0. -/
def avg (arr : List ℚ) : ℚ :=
  if arr.length = 0 then 0 else arr.sum / (arr.length : ℚ)

/-- Source `function median(arr)`: numeric ascending sort, middle element for odd
length, mean of the two middle elements for even length. JS returns NaN on an
empty array; callers guard on nonemptiness, the empty case is represented by 0. -/
def median (arr : List ℚ) : ℚ :=
  if arr.length = 0 then 0
  else
    let s := arr.insertionSort (· ≤ ·)
    let m := s.length / 2
    if s.length % 2 = 1 then s.getD m 0 else (s.getD (m - 1) 0 + s.getD m 0) / 2

/-- JS `Math.round`: nearest integer, ties toward positive infinity. -/
def jsRound (x : ℚ) : ℤ := ⌊x + 1 / 2⌋

/-- Source `function round1(x) { return Math.round(x*10)/10; }` -/
def round1 (x : ℚ) : ℚ := (jsRound (x * 10) : ℚ) / 10

/-- Source `Math.min(...arr)` on a nonempty array (the only way the source calls it). -/
def listMin : List ℚ → ℚ
  | [] => 0
  | x :: xs => xs.foldl min x

/-- Source `Math.max(...arr)` on a nonempty array (the only way the source calls it). -/
def listMax : List ℚ → ℚ
  | [] => 0
  | x :: xs => xs.foldl max x

/- Per-color block of `OverallStats.perColor` from the source. -/
structure PerColorStats where
  attempts : Nat
  correct : Nat
  accuracy : ℚ
  avgRT : Option ℚ
  medianRT : Option ℚ
  minRT : Option ℚ
  maxRT : Option ℚ
deriving DecidableEq, Repr

/- `type OverallStats` from the source; `Record<Color, _>` becomes a function. -/
structure OverallStats where
  totalTrials : Nat
  completedTrials : Nat
  correct : Nat
  accuracy : ℚ
  prematureErrors : Nat
  wrongKeyErrors : Nat
  misses : Nat
  overallAvgRT : Option ℚ
  overallMedianRT : Option ℚ
  perColor : Color → PerColorStats
  rtSamples : List ℚ
  rtSamplesByColor : Color → List ℚ

/-- Point update of a per-color counter (`p.attempts += 1` etc.). -/
def bump (f : Color → Nat) (c : Color) : Color → Nat :=
  fun x => if x = c then f x + 1 else f x

/-- Point append into a per-color sample list (`rtByColor[t.color].push(...)`). -/
def pushAt (f : Color → List ℚ) (c : Color) (v : ℚ) : Color → List ℚ :=
  fun x => if x = c then f x ++ [v] else f x

/- Accumulator of the `for (const t of trs)` loop in `computeStats`. -/
structure StatsAcc where
  attempts : Color → Nat
  corrects : Color → Nat
  rtAllCorrect : List ℚ
  rtByColor : Color → List ℚ
  prematureErrors : Nat
  wrongKeyErrors : Nat
  misses : Nat
  completedTrials : Nat

def initAcc : StatsAcc :=
  { attempts := fun _ => 0
    corrects := fun _ => 0
    rtAllCorrect := []
    rtByColor := fun _ => []
    prematureErrors := 0
    wrongKeyErrors := 0
    misses := 0
    completedTrials := 0 }

/-- One iteration of the loop body in `computeStats`: attempts and the
premature counter are bumped unconditionally, then `missed` short-circuits
(`continue`), then a present response is classified as correct (latency
collected) or wrong-key, and an absent response falls into the defensive
miss branch. `t.rt!` is a TS non-null assertion; on engine-produced trials
`rt` is set whenever `respondedAt` is, the default 0 is never read there. -/
def statsStep (a : StatsAcc) (t : Trial) : StatsAcc :=
  let a1 : StatsAcc :=
    { a with
      completedTrials := a.completedTrials + 1
      attempts := bump a.attempts t.color
      prematureErrors := a.prematureErrors + (if t.premature then 1 else 0) }
  if t.missed then { a1 with misses := a1.misses + 1 }
  else
    match t.respondedAt with
    | some _ =>
        if t.correct then
          { a1 with
            corrects := bump a1.corrects t.color
            rtAllCorrect := a1.rtAllCorrect ++ [t.rt.getD 0]
            rtByColor := pushAt a1.rtByColor t.color (t.rt.getD 0) }
        else { a1 with wrongKeyErrors := a1.wrongKeyErrors + 1 }
    | none => { a1 with misses := a1.misses + 1 }

/-- Source `function computeStats(trs)` from the source. JS conditional-expression
truthiness tests on lengths and counts become explicit `≠ 0` tests. -/
def computeStats (trs : List Trial) : OverallStats :=
  let acc := trs.foldl statsStep initAcc
  let perColor : Color → PerColorStats := fun c =>
    let arr := acc.rtByColor c
    { attempts := acc.attempts c
      correct := acc.corrects c
      accuracy :=
        if acc.attempts c ≠ 0 then
          round1 (100 * (acc.corrects c : ℚ) / (acc.attempts c : ℚ))
        else 0
      avgRT := if arr.length ≠ 0 then some (round1 (avg arr)) else none
      medianRT := if arr.length ≠ 0 then some (round1 (median arr)) else none
      minRT := if arr.length ≠ 0 then some (listMin arr) else none
      maxRT := if arr.length ≠ 0 then some (listMax arr) else none }
  { totalTrials := trs.length
    completedTrials := acc.completedTrials
    correct := acc.rtAllCorrect.length
    accuracy :=
      if trs.length ≠ 0 then
        round1 (100 * (acc.rtAllCorrect.length : ℚ) / (trs.length : ℚ))
      else 0
    prematureErrors := acc.prematureErrors
    wrongKeyErrors := acc.wrongKeyErrors
    misses := acc.misses
    overallAvgRT :=
      if acc.rtAllCorrect.length ≠ 0 then some (round1 (avg acc.rtAllCorrect)) else none
    overallMedianRT :=
      if acc.rtAllCorrect.length ≠ 0 then some (round1 (median acc.rtAllCorrect)) else none
    perColor := perColor
    rtSamples := acc.rtAllCorrect
    rtSamplesByColor := acc.rtByColor }

/- Result record of `function histogram(rt, bins)`. -/
structure Hist where
  edges : List ℚ
  counts : List Nat
  max : Nat
deriving DecidableEq, Repr

/-- The clamped bin index of one sample: `Math.floor(v/step)` clamped below by
0 and above by `bins - 1`. -/
def binIndex (v step : ℚ) (bins : Nat) : ℤ :=
  let idx := ⌊v / step⌋
  let idx2 := if idx < 0 then 0 else idx
  if (bins : ℤ) ≤ idx2 then (bins : ℤ) - 1 else idx2

/-- Source `counts[idx]++` on a JS array (index always in range in the source). -/
def bumpAt (l : List Nat) (i : Nat) : List Nat :=
  l.set i (l.getD i 0 + 1)

/-- Source `function histogram(rt, bins)` from the source: equal-width bins spanning
`[0, MAX_RT_MS]`, bin edges `i * step`, clamped bin indices, and the maximum
count floored at 1 (`Math.max(1, ...counts)`). -/
def histogram (rt : List ℚ) (bins : Nat) : Hist :=
  let step := MAX_RT_MS / (bins : ℚ)
  let edges := (List.range (bins + 1)).map (fun i => (i : ℚ) * step)
  let counts := rt.foldl (fun cs v => bumpAt cs (binIndex v step bins).toNat)
    (List.replicate bins 0)
  { edges := edges, counts := counts, max := counts.foldl Nat.max 1 }

/-- ASCII model of the JS `toUpperCase` normalization applied to `e.key`. -/
def upChar (c : Char) : Char :=
  if 'a' ≤ c ∧ c ≤ 'z' then Char.ofNat (c.toNat - 32) else c

def upKey (k : String) : String := String.mk (k.data.map upChar)

/-- The regex test `/^[A-Z]$/.test(key)` on the uppercased key. -/
def isUpperLetter (k : String) : Bool :=
  match k.data with
  | [c] => decide ('A' ≤ c) && decide (c ≤ 'Z')
  | _ => false

/-- The single-character key string matching a stimulus color. -/
def colorKey : Color → String
  | Color.R => "R"
  | Color.Y => "Y"
  | Color.G => "G"

/-- Source `function pickNextColor()`: uniform choice among the colors other than the
previous one (all three colors when there is no previous one). The source's
`Math.random()` draw is the explicit parameter `r`; the selected index is
`Math.floor(r * candidates.length)`. -/
def pickNextColor (r : ℚ) (lastColor : Option Color) : Color :=
  let colors : List Color := [Color.R, Color.Y, Color.G]
  let candidates :=
    match lastColor with
    | some lc => colors.filter (fun c => c ≠ lc)
    | none => colors
  candidates.getD (⌊r * (candidates.length : ℚ)⌋).toNat Color.R

/- Mutable component state touched by the gate, sequencer and classifier.
The pending gate timer is represented by its scheduled fire time; the active
trial by its index into the trial log, which makes the JS object-identity
test `currentTrial === myTrial` an index equality. -/
structure KState where
  phase : Phase
  lIsDown : Bool
  lDownAt : ℚ
  lGateTimer : Option ℚ
  lastResponseAt : ℚ
  flagPrematureForNext : Bool
  currentTrial : Option Nat
  trials : List Trial
  lastColor : Option Color
  testEndsAt : ℚ
  hasFocus : Bool
deriving DecidableEq, Repr

/-- Source `function scheduleStimulusAfterLGate()`: a new schedule replaces any
pending one; the one-shot fires `max(1, L_HOLD_MS - alreadyHeld)` ms from now. -/
def scheduleStimulusAfterLGate (s : KState) (now : ℚ) : KState :=
  if s.phase ≠ Phase.awaiting_L then s
  else
    let waitMs := max 1 (L_HOLD_MS - (now - s.lDownAt))
    { s with lGateTimer := some (now + waitMs) }

/-- Source `function showNextStimulus()` (minus arming the deadline timer, which is
modelled by `deadlineFireStep` applied to the index armed here): bail out at
or past the session deadline, otherwise pick a color, append a fresh trial
carrying the pending premature flag, clear the flag, enter `stimulus_on`. -/
def showNextStimulus (s : KState) (now r : ℚ) : KState :=
  if s.testEndsAt ≤ now then s
  else
    let color := pickNextColor r s.lastColor
    let t : Trial :=
      { color := color
        onset := now
        respondedAt := none
        rt := none
        correct := false
        premature := s.flagPrematureForNext
        wrongKey := none
        missed := false }
    { s with
      lastColor := some color
      flagPrematureForNext := false
      trials := s.trials ++ [t]
      currentTrial := some s.trials.length
      phase := Phase.stimulus_on }

/-- The response-deadline one-shot armed in `showNextStimulus` for the trial
at index `i`, firing: it acts only when the phase is still `stimulus_on`, the
active trial is the very trial it was armed for, and that trial has no
response; otherwise it is a silent no-op. -/
def deadlineFireStep (s : KState) (i : Nat) : KState :=
  match s.trials.get? i with
  | none => s
  | some tr =>
      if s.phase = Phase.stimulus_on ∧ s.currentTrial = some i ∧ tr.respondedAt = none then
        { s with trials := s.trials.set i { tr with missed := true }, phase := Phase.awaiting_L }
      else s

/-- The gate one-shot scheduled by `scheduleStimulusAfterLGate` firing at its
scheduled time `t` (consuming the pending timer): it reveals the next
stimulus only if the key is still held, the phase is still `awaiting_L`, and
the session deadline has not passed. `r` is the random draw consumed by the
reveal. -/
def gateFireStep (s : KState) (t r : ℚ) : KState :=
  if s.lGateTimer = some t then
    let s1 := { s with lGateTimer := none }
    if s1.lIsDown ∧ s1.phase = Phase.awaiting_L ∧ t < s1.testEndsAt then
      showNextStimulus s1 t r
    else s1
  else s

/-- Source `function handleKeyDown(e)` from the source: focus gate, gate-key branch
(down-transition records the time and, in `awaiting_L` before the deadline,
schedules the reveal), global debounce on every other key, premature flagging
in `awaiting_L`, and first-response classification in `stimulus_on`. -/
def handleKeyDown (s : KState) (rawKey : String) (now : ℚ) : KState :=
  if s.hasFocus = false then s
  else
    let key := upKey rawKey
    if key = "L" then
      if s.lIsDown = false then
        let s1 := { s with lIsDown := true, lDownAt := now }
        if s1.phase = Phase.awaiting_L ∧ now < s1.testEndsAt then
          scheduleStimulusAfterLGate s1 now
        else s1
      else s
    else if now - s.lastResponseAt < KEY_DEBOUNCE_MS then s
    else if s.phase = Phase.awaiting_L then
      if key = "R" ∨ key = "Y" ∨ key = "G" then { s with flagPrematureForNext := true } else s
    else if s.phase = Phase.stimulus_on then
      match s.currentTrial with
      | some i =>
          match s.trials.get? i with
          | some tr =>
              if isUpperLetter key then
                let s1 := { s with lastResponseAt := now }
                if tr.respondedAt = none then
                  let tr1 :=
                    { tr with
                      respondedAt := some now
                      rt := some (now - tr.onset)
                      correct := key = colorKey tr.color
                      wrongKey := if key = colorKey tr.color then tr.wrongKey else some key }
                  { s1 with trials := s1.trials.set i tr1, phase := Phase.awaiting_L }
                else s1
              else s
          | none => s
      | none => s
    else s

/-- Source `function handleKeyUp(e)` from the source: releasing the gate key before
`L_HOLD_MS` of hold cancels the pending reveal; the key is marked up either
way. (The source installs no focus guard on keyup.) -/
def handleKeyUp (s : KState) (rawKey : String) (now : ℚ) : KState :=
  let key := upKey rawKey
  if key = "L" then
    let s1 :=
      match s.lGateTimer with
      | some _ => if now - s.lDownAt < L_HOLD_MS then { s with lGateTimer := none } else s
      | none => s
    { s1 with lIsDown := false }
  else s

/- Event alphabet for runs of the key/timer subsystem: key transitions carry
the raw key and its event time; `gfire` is the gate one-shot firing at its
scheduled time with a random draw; `dfire` is the deadline one-shot armed for
trial index `i`. -/
inductive Ev where
  | down (k : String) (t : ℚ)
  | up (k : String) (t : ℚ)
  | gfire (t : ℚ) (r : ℚ)
  | dfire (i : Nat)
deriving Repr

def stepEv (s : KState) : Ev → KState
  | Ev.down k t => handleKeyDown s k t
  | Ev.up k t => handleKeyUp s k t
  | Ev.gfire t r => gateFireStep s t r
  | Ev.dfire i => deadlineFireStep s i

def runEv (s : KState) (evs : List Ev) : KState := evs.foldl stepEv s

/- `type SessionSummary` from the source. -/
structure SessionSummary where
  startedAt : ℚ
  durationMs : ℚ
  trials : List Trial
  statsTotalTrials : Nat

/- Outcome of `localStorage.getItem` + `JSON.parse` on the history store:
absent item, a parse failure (caught), a parsed non-array value, or a parsed
array of summaries. -/
inductive StoreVal where
  | corrupt
  | notArray
  | arr (l : List SessionSummary)

/-- Source `function loadTop5()`: empty on an absent item, on a parse failure and on
a non-array value; otherwise the stored array. -/
def loadTop5 (store : Option StoreVal) : List SessionSummary :=
  match store with
  | none => []
  | some StoreVal.corrupt => []
  | some StoreVal.notArray => []
  | some (StoreVal.arr l) => l

/-- Source `while (arr.length > 5) arr.pop()`: popping from the end until at most 5
remain keeps exactly the first 5. -/
def trimTo5 (l : List SessionSummary) : List SessionSummary := l.take 5

/-- Source `function persistTop5(s)`: re-read the store, prepend the new summary
(`unshift`), trim to 5, write back. -/
def persistTop5 (store : Option StoreVal) (s : SessionSummary) : Option StoreVal :=
  some (StoreVal.arr (trimTo5 (s :: loadTop5 store)))

/- ------------------------------------------------------------------ -/
/- Helper lemmas about the stats loop                                  -/
/- ------------------------------------------------------------------ -/

lemma statsStep_outcome (a : StatsAcc) (t : Trial) :
    (statsStep a t).rtAllCorrect.length + (statsStep a t).wrongKeyErrors
        + (statsStep a t).misses
      = a.rtAllCorrect.length + a.wrongKeyErrors + a.misses + 1 ∧
    (statsStep a t).completedTrials = a.completedTrials + 1 := by
  unfold statsStep
  cases hm : t.missed <;> cases hr : t.respondedAt <;> cases hc : t.correct <;>
    simp [List.length_append] <;> omega

lemma foldl_statsStep_outcome (trs : List Trial) (a : StatsAcc) :
    (trs.foldl statsStep a).rtAllCorrect.length + (trs.foldl statsStep a).wrongKeyErrors
        + (trs.foldl statsStep a).misses
      = a.rtAllCorrect.length + a.wrongKeyErrors + a.misses + trs.length ∧
    (trs.foldl statsStep a).completedTrials = a.completedTrials + trs.length := by
  induction trs generalizing a with
  | nil => simp
  | cons t ts ih =>
    simp only [List.foldl_cons, List.length_cons]
    obtain ⟨h1, h2⟩ := statsStep_outcome a t
    obtain ⟨h3, h4⟩ := ih (statsStep a t)
    exact ⟨by omega, by omega⟩

/-- Claim C1: for every trial log, `computeStats` returns stats in which
correct + wrongKeyErrors + misses equals totalTrials (each trial lands in
exactly one outcome counter), and totalTrials = completedTrials = length of
the input log. -/
theorem computeStats_outcome_partition (trs : List Trial) :
    (computeStats trs).correct + (computeStats trs).wrongKeyErrors
        + (computeStats trs).misses = (computeStats trs).totalTrials ∧
    (computeStats trs).totalTrials = trs.length ∧
    (computeStats trs).completedTrials = trs.length := by
  obtain ⟨h1, h2⟩ := foldl_statsStep_outcome trs initAcc
  simp only [initAcc, List.length_nil, Nat.zero_add] at h1 h2
  simp only [computeStats, initAcc]
  refine ⟨?_, ?_, ?_⟩ <;> first
  | exact h1
  | exact h2
  | trivial

/-- Claim C10: in `computeStats` the `missed` flag short-circuits the loop
body (`continue`): a missed trial contributes exactly one miss and nothing to
the correct, wrong-key and per-category correct counters or to the latency
samples, whatever else is set on the record; only the unconditional attempt
and premature bookkeeping that precede the short-circuit still run. -/
theorem computeStats_missed_precedence (trs : List Trial) (t : Trial)
    (h : t.missed = true) :
    (computeStats (trs ++ [t])).misses = (computeStats trs).misses + 1 ∧
    (computeStats (trs ++ [t])).correct = (computeStats trs).correct ∧
    (computeStats (trs ++ [t])).wrongKeyErrors = (computeStats trs).wrongKeyErrors ∧
    (computeStats (trs ++ [t])).rtSamples = (computeStats trs).rtSamples ∧
    (∀ c, (computeStats (trs ++ [t])).rtSamplesByColor c
        = (computeStats trs).rtSamplesByColor c) ∧
    (∀ c, ((computeStats (trs ++ [t])).perColor c).correct
        = ((computeStats trs).perColor c).correct) ∧
    (∀ c, ((computeStats (trs ++ [t])).perColor c).attempts
        = ((computeStats trs).perColor c).attempts + (if c = t.color then 1 else 0)) ∧
    (computeStats (trs ++ [t])).prematureErrors
      = (computeStats trs).prematureErrors + (if t.premature then 1 else 0) := by
  simp only [computeStats, List.foldl_append, List.foldl_cons, List.foldl_nil]
  simp only [statsStep, h, if_true]
  refine ⟨True.intro, True.intro, True.intro, True.intro, fun c => True.intro,
    fun c => True.intro, fun c => ?_, True.intro⟩
  simp only [bump]
  split <;> rfl

/-- The spec's order-statistic median, stated in its own words for the
refinement check of the stats engine: sort the sample ascending; take the
middle value for an odd-sized sample and the average of the two middle
values for an even-sized one. -/
def orderStatMedian (l : List ℚ) : ℚ :=
  let s := l.insertionSort (· ≤ ·)
  if s.length % 2 = 1 then s.getD (s.length / 2) 0
  else (s.getD (s.length / 2 - 1) 0 + s.getD (s.length / 2) 0) / 2

lemma median_eq_orderStatMedian (l : List ℚ) (h : l.length ≠ 0) :
    median l = orderStatMedian l := by
  simp only [median, orderStatMedian, if_neg h]

lemma avg_eq_sum_div (l : List ℚ) (h : l.length ≠ 0) :
    avg l = l.sum / (l.length : ℚ) := by
  simp only [avg, if_neg h]

/-- Claim C2: the overall and per-category mean and median reaction times are
undefined exactly when the corresponding correct-only sample is empty, and on
a non-empty sample equal the one-decimal rounding of the arithmetic mean
resp. of the order-statistic median of that sample. -/
theorem computeStats_mean_median (trs : List Trial) (c : Color) :
    ((computeStats trs).overallAvgRT = none ↔ (computeStats trs).rtSamples = []) ∧
    ((computeStats trs).overallMedianRT = none ↔ (computeStats trs).rtSamples = []) ∧
    (((computeStats trs).perColor c).avgRT = none ↔
      (computeStats trs).rtSamplesByColor c = []) ∧
    (((computeStats trs).perColor c).medianRT = none ↔
      (computeStats trs).rtSamplesByColor c = []) ∧
    ((computeStats trs).rtSamples ≠ [] →
      (computeStats trs).overallAvgRT
          = some (round1 ((computeStats trs).rtSamples.sum
              / ((computeStats trs).rtSamples.length : ℚ))) ∧
      (computeStats trs).overallMedianRT
          = some (round1 (orderStatMedian (computeStats trs).rtSamples))) ∧
    ((computeStats trs).rtSamplesByColor c ≠ [] →
      ((computeStats trs).perColor c).avgRT
          = some (round1 (((computeStats trs).rtSamplesByColor c).sum
              / (((computeStats trs).rtSamplesByColor c).length : ℚ))) ∧
      ((computeStats trs).perColor c).medianRT
          = some (round1 (orderStatMedian ((computeStats trs).rtSamplesByColor c)))) := by
  simp only [computeStats]
  refine ⟨?_, ?_, ?_, ?_, ?_, ?_⟩
  · split <;> simp_all [List.length_eq_zero]
  · split <;> simp_all [List.length_eq_zero]
  · split <;> simp_all [List.length_eq_zero]
  · split <;> simp_all [List.length_eq_zero]
  · intro h
    have hl : (List.foldl statsStep initAcc trs).rtAllCorrect.length ≠ 0 := by
      simpa [List.length_eq_zero] using h
    rw [if_pos hl, if_pos hl, avg_eq_sum_div _ hl, median_eq_orderStatMedian _ hl]
    exact ⟨rfl, rfl⟩
  · intro h
    have hl : ((List.foldl statsStep initAcc trs).rtByColor c).length ≠ 0 := by
      simpa [List.length_eq_zero] using h
    rw [if_pos hl, if_pos hl, avg_eq_sum_div _ hl, median_eq_orderStatMedian _ hl]
    exact ⟨rfl, rfl⟩

/- A concrete correct trial used to instantiate hypothesis-bearing theorems. -/
def demoTrial : Trial :=
  { color := Color.Y
    onset := 0
    respondedAt := some 300
    rt := some 300
    correct := true
    premature := false
    wrongKey := none
    missed := false }

/-- Witness for C2 at a concrete one-trial log with a correct response. -/
theorem computeStats_mean_median_witness :
    (computeStats [demoTrial]).rtSamples ≠ [] ∧
    (computeStats [demoTrial]).overallAvgRT
        = some (round1 ((computeStats [demoTrial]).rtSamples.sum
            / (((computeStats [demoTrial]).rtSamples.length : ℚ)))) :=
  ⟨by decide, ((computeStats_mean_median [demoTrial] Color.Y).2.2.2.2.1 (by decide)).1⟩

/- ------------------------------------------------------------------ -/
/- Order bounds for min, max, mean and median                          -/
/- ------------------------------------------------------------------ -/

lemma foldl_min_le_init (xs : List ℚ) (a : ℚ) : xs.foldl min a ≤ a := by
  induction xs generalizing a with
  | nil => simp
  | cons x xs ih => exact le_trans (ih (min a x)) (min_le_left a x)

lemma foldl_min_le_mem (xs : List ℚ) (a x : ℚ) (hx : x ∈ xs) : xs.foldl min a ≤ x := by
  induction xs generalizing a with
  | nil => cases hx
  | cons y ys ih =>
    rcases List.mem_cons.mp hx with h | h
    · subst h
      exact le_trans (foldl_min_le_init ys (min a x)) (min_le_right a x)
    · exact ih (min a y) h

lemma listMin_le_mem (l : List ℚ) (x : ℚ) (hx : x ∈ l) : listMin l ≤ x := by
  cases l with
  | nil => cases hx
  | cons y ys =>
    rcases List.mem_cons.mp hx with h | h
    · subst h
      exact foldl_min_le_init ys x
    · exact foldl_min_le_mem ys y x h

lemma init_le_foldl_max (xs : List ℚ) (a : ℚ) : a ≤ xs.foldl max a := by
  induction xs generalizing a with
  | nil => simp
  | cons x xs ih => exact le_trans (le_max_left a x) (ih (max a x))

lemma mem_le_foldl_max (xs : List ℚ) (a x : ℚ) (hx : x ∈ xs) : x ≤ xs.foldl max a := by
  induction xs generalizing a with
  | nil => cases hx
  | cons y ys ih =>
    rcases List.mem_cons.mp hx with h | h
    · subst h
      exact le_trans (le_max_right a x) (init_le_foldl_max ys (max a x))
    · exact ih (max a y) h

lemma mem_le_listMax (l : List ℚ) (x : ℚ) (hx : x ∈ l) : x ≤ listMax l := by
  cases l with
  | nil => cases hx
  | cons y ys =>
    rcases List.mem_cons.mp hx with h | h
    · subst h
      exact init_le_foldl_max ys x
    · exact mem_le_foldl_max ys y x h

lemma const_mul_length_le_sum (l : List ℚ) (m : ℚ) (h : ∀ x ∈ l, m ≤ x) :
    m * (l.length : ℚ) ≤ l.sum := by
  induction l with
  | nil => simp
  | cons x xs ih =>
    have hx := h x (List.mem_cons_self x xs)
    have hxs := ih (fun y hy => h y (List.mem_cons_of_mem x hy))
    simp only [List.sum_cons, List.length_cons]
    push_cast
    nlinarith

lemma sum_le_const_mul_length (l : List ℚ) (m : ℚ) (h : ∀ x ∈ l, x ≤ m) :
    l.sum ≤ m * (l.length : ℚ) := by
  induction l with
  | nil => simp
  | cons x xs ih =>
    have hx := h x (List.mem_cons_self x xs)
    have hxs := ih (fun y hy => h y (List.mem_cons_of_mem x hy))
    simp only [List.sum_cons, List.length_cons]
    push_cast
    nlinarith

lemma listMin_le_avg (l : List ℚ) (h : l ≠ []) : listMin l ≤ avg l := by
  have hlen : l.length ≠ 0 := by simpa [List.length_eq_zero] using h
  have hpos : (0 : ℚ) < (l.length : ℚ) := by
    exact_mod_cast Nat.pos_of_ne_zero hlen
  rw [avg, if_neg hlen, le_div_iff₀ hpos]
  exact const_mul_length_le_sum l (listMin l) (fun x hx => listMin_le_mem l x hx)

lemma avg_le_listMax (l : List ℚ) (h : l ≠ []) : avg l ≤ listMax l := by
  have hlen : l.length ≠ 0 := by simpa [List.length_eq_zero] using h
  have hpos : (0 : ℚ) < (l.length : ℚ) := by
    exact_mod_cast Nat.pos_of_ne_zero hlen
  rw [avg, if_neg hlen, div_le_iff₀ hpos]
  exact sum_le_const_mul_length l (listMax l) (fun x hx => mem_le_listMax l x hx)

lemma getD_mem_of_lt (l : List ℚ) (i : Nat) (hi : i < l.length) : l.getD i 0 ∈ l := by
  rw [List.getD_eq_getElem l 0 hi]
  exact List.getElem_mem hi

lemma median_bounds (l : List ℚ) (h : l ≠ []) :
    listMin l ≤ median l ∧ median l ≤ listMax l := by
  have hlen : l.length ≠ 0 := by simpa [List.length_eq_zero] using h
  simp only [median, if_neg hlen]
  have hslen : (l.insertionSort (· ≤ ·)).length = l.length :=
    List.length_insertionSort _ l
  have hpos : 0 < (l.insertionSort (· ≤ ·)).length := by
    rw [hslen]; exact Nat.pos_of_ne_zero hlen
  have hmem : ∀ i, i < (l.insertionSort (· ≤ ·)).length →
      (l.insertionSort (· ≤ ·)).getD i 0 ∈ l := by
    intro i hi
    have hmem2 := getD_mem_of_lt (l.insertionSort (· ≤ ·)) i hi
    exact (List.mem_insertionSort (· ≤ ·)).mp hmem2
  have hm2 : (l.insertionSort (· ≤ ·)).length / 2 < (l.insertionSort (· ≤ ·)).length :=
    Nat.div_lt_self hpos (by norm_num)
  have hm1 : (l.insertionSort (· ≤ ·)).length / 2 - 1 < (l.insertionSort (· ≤ ·)).length := by
    omega
  have e2 := hmem _ hm2
  have e1 := hmem _ hm1
  constructor
  · split
    · exact listMin_le_mem l _ e2
    · have b1 := listMin_le_mem l _ e1
      have b2 := listMin_le_mem l _ e2
      linarith
  · split
    · exact mem_le_listMax l _ e2
    · have b1 := mem_le_listMax l _ e1
      have b2 := mem_le_listMax l _ e2
      linarith

lemma round1_le_add (x : ℚ) : round1 x ≤ x + 1 / 20 := by
  have h := Int.floor_le (x * 10 + 1 / 2)
  rw [round1, jsRound, div_le_iff₀ (by norm_num : (0 : ℚ) < 10)]
  linarith

lemma sub_lt_round1 (x : ℚ) : x - 1 / 20 < round1 x := by
  have h := Int.sub_one_lt_floor (x * 10 + 1 / 2)
  rw [round1, jsRound, lt_div_iff₀ (by norm_num : (0 : ℚ) < 10)]
  linarith

/-- Claim C3 (amended): for a non-empty per-category correct-only sample the
reported minRT and maxRT are its exact minimum and maximum while avgRT and
medianRT are one-decimal roundings of its mean and median, so the order
relations hold up to the half-step of the rounding: minRT - 0.05 < avgRT ≤
maxRT + 0.05 and minRT - 0.05 < medianRT ≤ maxRT + 0.05. The exact
inequalities of the original claim fail because rounding can cross the raw
minimum or maximum (see the counterexample). -/
theorem perColor_rounded_bounds (trs : List Trial) (c : Color)
    (h : (computeStats trs).rtSamplesByColor c ≠ []) :
    ((computeStats trs).perColor c).minRT
        = some (listMin ((computeStats trs).rtSamplesByColor c)) ∧
    ((computeStats trs).perColor c).maxRT
        = some (listMax ((computeStats trs).rtSamplesByColor c)) ∧
    ((computeStats trs).perColor c).avgRT
        = some (round1 (avg ((computeStats trs).rtSamplesByColor c))) ∧
    ((computeStats trs).perColor c).medianRT
        = some (round1 (median ((computeStats trs).rtSamplesByColor c))) ∧
    listMin ((computeStats trs).rtSamplesByColor c) - 1 / 20
        < round1 (avg ((computeStats trs).rtSamplesByColor c)) ∧
    round1 (avg ((computeStats trs).rtSamplesByColor c))
        ≤ listMax ((computeStats trs).rtSamplesByColor c) + 1 / 20 ∧
    listMin ((computeStats trs).rtSamplesByColor c) - 1 / 20
        < round1 (median ((computeStats trs).rtSamplesByColor c)) ∧
    round1 (median ((computeStats trs).rtSamplesByColor c))
        ≤ listMax ((computeStats trs).rtSamplesByColor c) + 1 / 20 := by
  simp only [computeStats] at h ⊢
  have hl : ((List.foldl statsStep initAcc trs).rtByColor c).length ≠ 0 := by
    simpa [List.length_eq_zero] using h
  have hmin := listMin_le_avg _ h
  have hmax := avg_le_listMax _ h
  have hmed := median_bounds _ h
  have r1 := sub_lt_round1 (avg ((List.foldl statsStep initAcc trs).rtByColor c))
  have r2 := round1_le_add (avg ((List.foldl statsStep initAcc trs).rtByColor c))
  have r3 := sub_lt_round1 (median ((List.foldl statsStep initAcc trs).rtByColor c))
  have r4 := round1_le_add (median ((List.foldl statsStep initAcc trs).rtByColor c))
  refine ⟨by rw [if_pos hl], by rw [if_pos hl], by rw [if_pos hl], by rw [if_pos hl],
    by linarith, by linarith, by linarith [hmed.1], by linarith [hmed.2]⟩

/- A correct trial whose reaction time of 0.04 ms makes the rounded mean and
median (0) fall strictly below the reported raw minimum (0.04). -/
def cexTrial : Trial :=
  { color := Color.R
    onset := 0
    respondedAt := some (1 / 25)
    rt := some (1 / 25)
    correct := true
    premature := false
    wrongKey := none
    missed := false }

/-- Counterexample to C3 as stated: on the one-trial log `[cexTrial]` the R
category reports minRT = 0.04 but medianRT = avgRT = 0, so minRT ≤ medianRT
and minRT ≤ avgRT are both violated. -/
theorem perColor_min_median_cex :
    ((computeStats [cexTrial]).perColor Color.R).minRT = some (1 / 25) ∧
    ((computeStats [cexTrial]).perColor Color.R).medianRT = some 0 ∧
    ((computeStats [cexTrial]).perColor Color.R).avgRT = some 0 ∧
    ¬ ((1 : ℚ) / 25 ≤ 0) := by
  refine ⟨?_, ?_, ?_, by norm_num⟩ <;>
    norm_num [computeStats, statsStep, initAcc, bump, pushAt, cexTrial, median, avg,
      listMin, round1, jsRound, List.insertionSort, List.orderedInsert]

/-- Witness for the amended C3 at a concrete one-trial log. -/
theorem perColor_rounded_bounds_witness :
    (computeStats [demoTrial]).rtSamplesByColor Color.Y ≠ [] ∧
    listMin ((computeStats [demoTrial]).rtSamplesByColor Color.Y) - 1 / 20
        < round1 (avg ((computeStats [demoTrial]).rtSamplesByColor Color.Y)) :=
  ⟨by decide, (perColor_rounded_bounds [demoTrial] Color.Y (by decide)).2.2.2.2.1⟩

/- ------------------------------------------------------------------ -/
/- Histogram lemmas                                                    -/
/- ------------------------------------------------------------------ -/

lemma binIndex_bounds (v step : ℚ) (bins : Nat) (hb : 0 < bins) :
    0 ≤ binIndex v step bins ∧ binIndex v step bins ≤ (bins : ℤ) - 1 := by
  simp only [binIndex]
  constructor <;> split <;> split <;> omega

lemma binIndex_toNat_lt (v step : ℚ) (bins : Nat) (hb : 0 < bins) :
    (binIndex v step bins).toNat < bins := by
  obtain ⟨h1, h2⟩ := binIndex_bounds v step bins hb
  omega

lemma bumpAt_length (l : List Nat) (i : Nat) : (bumpAt l i).length = l.length := by
  simp [bumpAt]

lemma bumpAt_sum (l : List Nat) (i : Nat) (h : i < l.length) :
    (bumpAt l i).sum = l.sum + 1 := by
  induction l generalizing i with
  | nil => simp at h
  | cons x xs ih =>
    cases i with
    | zero =>
      simp only [bumpAt, List.set_cons_zero, List.getD_cons_zero, List.sum_cons]
      omega
    | succ j =>
      have hj : j < xs.length := by simpa using h
      have := ih j hj
      simp only [bumpAt, List.set_cons_succ, List.getD_cons_succ, List.sum_cons] at *
      omega

lemma foldl_natMax_max (l : List Nat) :
    ∀ a b, l.foldl Nat.max (Nat.max a b) = Nat.max a (l.foldl Nat.max b) := by
  induction l with
  | nil => intro a b; rfl
  | cons x xs ih =>
    intro a b
    simp only [List.foldl_cons, Nat.max_assoc]
    exact ih a (Nat.max b x)

lemma histFold_inv (rt : List ℚ) (cs : List Nat) (step : ℚ) (bins : Nat)
    (hb : 0 < bins) (hlen : cs.length = bins) :
    (rt.foldl (fun cs2 v => bumpAt cs2 (binIndex v step bins).toNat) cs).length = bins ∧
    (rt.foldl (fun cs2 v => bumpAt cs2 (binIndex v step bins).toNat) cs).sum
      = cs.sum + rt.length := by
  induction rt generalizing cs with
  | nil => simpa using hlen
  | cons v vs ih =>
    simp only [List.foldl_cons, List.length_cons]
    have hidx : (binIndex v step bins).toNat < cs.length := by
      rw [hlen]; exact binIndex_toNat_lt v step bins hb
    have hlen2 : (bumpAt cs (binIndex v step bins).toNat).length = bins := by
      rw [bumpAt_length]; exact hlen
    obtain ⟨ha, hb2⟩ := ih (bumpAt cs (binIndex v step bins).toNat) hlen2
    refine ⟨ha, ?_⟩
    rw [hb2, bumpAt_sum cs _ hidx]
    omega

/-- Claim C4: `histogram rt 10` over [0, MAX_RT_MS] has 10 bins whose counts
sum to the number of samples, every sample lands in a clamped bin index
within [0, 9] (a latency of exactly MAX_RT_MS in the last bin), the edges
are the 11 equally spaced boundaries 0, 500, ..., 5000, and the reported max
is the largest count floored at 1. -/
theorem histogram_spec (rt : List ℚ) :
    (histogram rt 10).counts.sum = rt.length ∧
    (histogram rt 10).counts.length = 10 ∧
    (histogram rt 10).edges = (List.range 11).map (fun i => (i : ℚ) * 500) ∧
    (histogram rt 10).max = Nat.max 1 ((histogram rt 10).counts.foldl Nat.max 0) ∧
    (∀ v : ℚ, 0 ≤ binIndex v (MAX_RT_MS / 10) 10 ∧ binIndex v (MAX_RT_MS / 10) 10 ≤ 9) ∧
    binIndex MAX_RT_MS (MAX_RT_MS / 10) 10 = 9 := by
  have hstep : MAX_RT_MS / ((10 : Nat) : ℚ) = MAX_RT_MS / 10 := by norm_num
  obtain ⟨h1, h2⟩ := histFold_inv rt (List.replicate 10 0) (MAX_RT_MS / ((10 : Nat) : ℚ))
    10 (by norm_num) (by simp)
  refine ⟨?_, ?_, ?_, ?_, ?_, ?_⟩
  · simp only [histogram]
    rw [h2]
    simp
  · simp only [histogram]
    exact h1
  · simp only [histogram, MAX_RT_MS]
    norm_num
  · simp only [histogram]
    generalize (rt.foldl (fun cs2 v =>
      bumpAt cs2 (binIndex v (MAX_RT_MS / ((10 : Nat) : ℚ)) 10).toNat)
      (List.replicate 10 0)) = cs
    have hmax := foldl_natMax_max cs 1 0
    simpa using hmax
  · intro v
    rw [← hstep]
    exact binIndex_bounds v _ 10 (by norm_num)
  · rw [binIndex, MAX_RT_MS]
    norm_num

/-- Claim C5 (amended): the debounce timestamp is updated only by an accepted
letter key during `stimulus_on` with an active trial (set to the key event
time); every other accepted key leaves it unchanged — a stimulus-alphabet
key accepted during `awaiting_L` sets the pending-premature flag without
touching `lastResponseAt`, and during `stimulus_on` a non-letter key, an
absent active trial or a dangling trial index leave the whole state
unchanged, as do the idle, armed and finished phases. -/
theorem debounce_update_phases (s : KState) (key : String) (now : ℚ)
    (hf : s.hasFocus = true) (hk : upKey key ≠ "L")
    (hdb : ¬ (now - s.lastResponseAt < KEY_DEBOUNCE_MS)) :
    (s.phase = Phase.awaiting_L →
      (handleKeyDown s key now).lastResponseAt = s.lastResponseAt ∧
      ((upKey key = "R" ∨ upKey key = "Y" ∨ upKey key = "G") →
        (handleKeyDown s key now).flagPrematureForNext = true)) ∧
    (∀ i tr, s.phase = Phase.stimulus_on → s.currentTrial = some i →
      s.trials.get? i = some tr → isUpperLetter (upKey key) = true →
      (handleKeyDown s key now).lastResponseAt = now) ∧
    (s.phase = Phase.stimulus_on → isUpperLetter (upKey key) = false →
      handleKeyDown s key now = s) ∧
    (s.phase = Phase.stimulus_on → s.currentTrial = none →
      handleKeyDown s key now = s) ∧
    (∀ i, s.phase = Phase.stimulus_on → s.currentTrial = some i →
      s.trials.get? i = none → handleKeyDown s key now = s) ∧
    (s.phase = Phase.idle ∨ s.phase = Phase.armed ∨ s.phase = Phase.finished →
      handleKeyDown s key now = s) := by
  refine ⟨?_, ?_, ?_, ?_, ?_, ?_⟩
  · intro hp
    constructor
    · simp only [handleKeyDown, hf, hp]
      simp only [Bool.true_eq_false, if_false, if_neg hk, if_neg hdb, if_true]
      split <;> rfl
    · intro halpha
      simp only [handleKeyDown, hf, hp]
      simp only [Bool.true_eq_false, if_false, if_neg hk, if_neg hdb, if_true,
        if_pos halpha]
  · intro i tr hp hc ht hl
    simp only [handleKeyDown, hf, hp, hc, ht]
    simp only [Bool.true_eq_false, if_false, if_neg hk, if_neg hdb, if_true]
    simp only [hl, eq_self_iff_true, if_true]
    split
    · rename_i hbad
      exact absurd hbad (by decide)
    · split <;> rfl
  · intro hp hl2
    simp only [handleKeyDown, hf, hp]
    simp only [Bool.true_eq_false, if_false, if_neg hk, if_neg hdb, eq_self_iff_true,
      if_true]
    split
    · rename_i hbad
      exact absurd hbad (by decide)
    · cases hcur : s.currentTrial with
      | none => rfl
      | some i =>
        cases hget : s.trials.get? i with
        | none => simp only [hget]
        | some tr => simp only [hget, hl2, Bool.false_eq_true, if_false]
  · intro hp hcur
    simp only [handleKeyDown, hf, hp, hcur]
    simp only [Bool.true_eq_false, if_false, if_neg hk, if_neg hdb, eq_self_iff_true,
      if_true]
    split
    · rename_i hbad
      exact absurd hbad (by decide)
    · rfl
  · intro i hp hcur hget
    simp only [handleKeyDown, hf, hp, hcur, hget]
    simp only [Bool.true_eq_false, if_false, if_neg hk, if_neg hdb, eq_self_iff_true,
      if_true]
    split
    · rename_i hbad
      exact absurd hbad (by decide)
    · rfl
  · intro hph
    have h1 : s.phase ≠ Phase.awaiting_L := by
      rcases hph with h | h | h <;> rw [h] <;> decide
    have h2 : s.phase ≠ Phase.stimulus_on := by
      rcases hph with h | h | h <;> rw [h] <;> decide
    simp only [handleKeyDown, hf]
    simp only [Bool.true_eq_false, if_false, if_neg hk, if_neg hdb, if_neg h1, if_neg h2]

/- A session state sitting in the gated-wait phase with focus, an idle
debounce clock and an empty trial log. -/
def cexState : KState :=
  { phase := Phase.awaiting_L
    lIsDown := false
    lDownAt := 0
    lGateTimer := none
    lastResponseAt := 0
    flagPrematureForNext := false
    currentTrial := none
    trials := []
    lastColor := none
    testEndsAt := 60000
    hasFocus := true }

/-- Counterexample to C5 as stated: in `awaiting_L` the accepted
stimulus-alphabet key R at time 1000 sets the pending-premature flag but
leaves the debounce timestamp at 0 instead of updating it to 1000. -/
theorem debounce_update_cex :
    (handleKeyDown cexState "R" 1000).lastResponseAt = 0 ∧
    (handleKeyDown cexState "R" 1000).flagPrematureForNext = true ∧
    (0 : ℚ) ≠ 1000 := by
  refine ⟨?_, ?_, by norm_num⟩ <;>
    (norm_num [handleKeyDown, cexState, KEY_DEBOUNCE_MS]; decide)

/-- Witness for the amended C5 at concrete states and key events: an accepted
Y in gated-wait flags premature without touching the debounce timestamp, and
an accepted non-letter key during stimulus-on leaves the state unchanged. -/
theorem debounce_update_phases_witness :
    (handleKeyDown cexState "Y" 500).lastResponseAt = cexState.lastResponseAt ∧
    (handleKeyDown cexState "Y" 500).flagPrematureForNext = true ∧
    handleKeyDown { cexState with phase := Phase.stimulus_on } "1" 500
      = { cexState with phase := Phase.stimulus_on } :=
  ⟨((debounce_update_phases cexState "Y" 500 rfl (by decide)
      (by norm_num [cexState, KEY_DEBOUNCE_MS])).1 rfl).1,
    ((debounce_update_phases cexState "Y" 500 rfl (by decide)
      (by norm_num [cexState, KEY_DEBOUNCE_MS])).1 rfl).2
      (Or.inr (Or.inl (by decide))),
    (debounce_update_phases { cexState with phase := Phase.stimulus_on } "1" 500 rfl
      (by decide) (by norm_num [cexState, KEY_DEBOUNCE_MS])).2.2.1 rfl (by decide)⟩

lemma upKey_L : upKey "L" = "L" := by decide

/-- The trial appended by `showNextStimulus` at time `now` with random draw
`r` from state `s`. -/
def revealedTrial (s : KState) (now r : ℚ) : Trial :=
  { color := pickNextColor r s.lastColor
    onset := now
    respondedAt := none
    rt := none
    correct := false
    premature := s.flagPrematureForNext
    wrongKey := none
    missed := false }

lemma max_one_hold : max (1 : ℚ) L_HOLD_MS = L_HOLD_MS := by
  norm_num [L_HOLD_MS]

/-- Claim C6: from any gated-wait state with focus and the gate key up,
pressing the gate key at time t (before the deadline) schedules the reveal
for t + 200 ms. Releasing before 200 ms of hold cancels the pending reveal:
no trial is added, the phase stays gated-wait and a later firing of the
(cancelled) gate timer is a no-op. Holding through the full 200 ms (still
before the deadline) reveals exactly one stimulus: the log grows by exactly
one trial, and neither a further gate-timer firing nor keeping the key held
reveals another. -/
theorem gate_hold_release (s : KState) (t t2 u r r2 : ℚ)
    (hf : s.hasFocus = true) (hp : s.phase = Phase.awaiting_L)
    (hd : s.lIsDown = false) (ht : t < s.testEndsAt) :
    (t2 - t < L_HOLD_MS →
      (runEv s [Ev.down "L" t, Ev.up "L" t2]).lGateTimer = none ∧
      (runEv s [Ev.down "L" t, Ev.up "L" t2]).trials = s.trials ∧
      (runEv s [Ev.down "L" t, Ev.up "L" t2]).phase = Phase.awaiting_L ∧
      stepEv (runEv s [Ev.down "L" t, Ev.up "L" t2]) (Ev.gfire u r)
        = runEv s [Ev.down "L" t, Ev.up "L" t2]) ∧
    (t + L_HOLD_MS < s.testEndsAt →
      (runEv s [Ev.down "L" t, Ev.gfire (t + L_HOLD_MS) r]).trials.length
        = s.trials.length + 1 ∧
      (runEv s [Ev.down "L" t, Ev.gfire (t + L_HOLD_MS) r]).phase = Phase.stimulus_on ∧
      (runEv s [Ev.down "L" t, Ev.gfire (t + L_HOLD_MS) r]).lGateTimer = none ∧
      stepEv (runEv s [Ev.down "L" t, Ev.gfire (t + L_HOLD_MS) r]) (Ev.gfire u r2)
        = runEv s [Ev.down "L" t, Ev.gfire (t + L_HOLD_MS) r] ∧
      stepEv (runEv s [Ev.down "L" t, Ev.gfire (t + L_HOLD_MS) r]) (Ev.down "L" u)
        = runEv s [Ev.down "L" t, Ev.gfire (t + L_HOLD_MS) r]) := by
  have hdown : stepEv s (Ev.down "L" t)
      = { s with lIsDown := true, lDownAt := t, lGateTimer := some (t + L_HOLD_MS) } := by
    simp [stepEv, handleKeyDown, upKey_L, hf, hd, hp, ht, scheduleStimulusAfterLGate,
      max_one_hold]
  constructor
  · intro h1
    have hup : runEv s [Ev.down "L" t, Ev.up "L" t2]
        = { s with lIsDown := false, lDownAt := t, lGateTimer := none } := by
      simp only [runEv, List.foldl_cons, List.foldl_nil, hdown]
      simp [stepEv, handleKeyUp, upKey_L, h1]
    rw [hup]
    refine ⟨rfl, rfl, hp, ?_⟩
    simp [stepEv, gateFireStep]
  · intro h2
    have hfire : runEv s [Ev.down "L" t, Ev.gfire (t + L_HOLD_MS) r]
        = { s with
              lIsDown := true, lDownAt := t, lGateTimer := none,
              lastColor := some (pickNextColor r s.lastColor),
              flagPrematureForNext := false,
              trials := s.trials ++ [revealedTrial s (t + L_HOLD_MS) r],
              currentTrial := some s.trials.length,
              phase := Phase.stimulus_on } := by
      simp only [runEv, List.foldl_cons, List.foldl_nil, hdown]
      simp [stepEv, gateFireStep, showNextStimulus, revealedTrial, hp, not_le.mpr h2]
    rw [hfire]
    refine ⟨by simp, rfl, rfl, ?_, ?_⟩
    · simp [stepEv, gateFireStep]
    · simp [stepEv, handleKeyDown, upKey_L, hf]

/-- Witness for C6 at a concrete gated-wait state: an early release at 150 ms
of hold leaves the trial log unchanged, a full 200 ms hold reveals exactly
one stimulus. -/
theorem gate_hold_release_witness :
    (runEv cexState [Ev.down "L" 1000, Ev.up "L" 1150]).trials = cexState.trials ∧
    (runEv cexState [Ev.down "L" 1000, Ev.gfire (1000 + L_HOLD_MS) 0]).trials.length
      = cexState.trials.length + 1 :=
  ⟨((gate_hold_release cexState 1000 1150 9999 0 0 rfl rfl rfl
      (by norm_num [cexState])).1 (by norm_num [L_HOLD_MS])).2.1,
    ((gate_hold_release cexState 1000 1150 9999 0 0 rfl rfl rfl
      (by norm_num [cexState])).2 (by norm_num [L_HOLD_MS, cexState])).1⟩

/-- Claim C7: a response-deadline callback armed for trial index i finalizes
its trial as missed (and returns the phase to gated-wait) exactly when the
phase is still `stimulus_on`, the active trial is the very trial it was
armed for, and that trial carries no response; in every other situation —
superseded trial, already-responded trial, different phase, or a dangling
index — it is a silent no-op leaving the whole state (trial log, active
trial and phase included) unchanged. -/
theorem deadline_guard (s : KState) (i : Nat) :
    (∀ tr, s.trials.get? i = some tr →
      (s.phase = Phase.stimulus_on ∧ s.currentTrial = some i ∧ tr.respondedAt = none →
        deadlineFireStep s i
          = { s with
                trials := s.trials.set i { tr with missed := true },
                phase := Phase.awaiting_L }) ∧
      (¬ (s.phase = Phase.stimulus_on ∧ s.currentTrial = some i ∧ tr.respondedAt = none) →
        deadlineFireStep s i = s)) ∧
    (s.trials.get? i = none → deadlineFireStep s i = s) := by
  constructor
  · intro tr htr
    constructor
    · intro hguard
      simp only [deadlineFireStep, htr, if_pos hguard]
    · intro hguard
      simp only [deadlineFireStep, htr, if_neg hguard]
  · intro hnone
    simp only [deadlineFireStep, hnone]

/- A live stimulus-on state whose active trial (index 0) has no response. -/
def dTrial : Trial :=
  { color := Color.G
    onset := 100
    respondedAt := none
    rt := none
    correct := false
    premature := false
    wrongKey := none
    missed := false }

def dState : KState :=
  { phase := Phase.stimulus_on
    lIsDown := false
    lDownAt := 0
    lGateTimer := none
    lastResponseAt := 0
    flagPrematureForNext := false
    currentTrial := some 0
    trials := [dTrial]
    lastColor := some Color.G
    testEndsAt := 60000
    hasFocus := true }

/-- Witness for C7: on a live unanswered trial the deadline callback marks it
missed and re-enters gated-wait; on a state with no trial at the armed index
it is a no-op. -/
theorem deadline_guard_witness :
    deadlineFireStep dState 0
      = { dState with
            trials := [dTrial].set 0 { dTrial with missed := true },
            phase := Phase.awaiting_L } ∧
    deadlineFireStep cexState 0 = cexState :=
  ⟨((deadline_guard dState 0).1 dTrial rfl).1 ⟨rfl, rfl, rfl⟩,
    (deadline_guard cexState 0).2 rfl⟩

/-- Claim C8: with a previous category present, `pickNextColor` never returns
that category for any random draw in [0, 1); with no previous category every
one of the three categories is reachable by some draw in [0, 1). -/
theorem pickNextColor_no_repeat :
    (∀ (lc : Color) (r : ℚ), 0 ≤ r → r < 1 → pickNextColor r (some lc) ≠ lc) ∧
    (∀ c : Color, ∃ r : ℚ, 0 ≤ r ∧ r < 1 ∧ pickNextColor r none = c) := by
  constructor
  · intro lc r h0 h1
    have hfl : ⌊r * 2⌋ = 0 ∨ ⌊r * 2⌋ = 1 := by
      have ha : 0 ≤ ⌊r * 2⌋ := Int.floor_nonneg.mpr (by nlinarith)
      have hb : ⌊r * 2⌋ < 2 := Int.floor_lt.mpr (by push_cast; nlinarith)
      omega
    cases lc <;>
      simp only [pickNextColor, List.filter, decide_not] <;>
      norm_num <;>
      rcases hfl with h | h <;>
      simp [h]
  · intro c
    cases c
    · exact ⟨0, by norm_num, by norm_num, by norm_num [pickNextColor]⟩
    · refine ⟨1 / 3, by norm_num, by norm_num, ?_⟩
      have h3 : ⌊(1 / 3 : ℚ) * 3⌋ = 1 := by norm_num
      simp [pickNextColor, h3]
    · refine ⟨2 / 3, by norm_num, by norm_num, ?_⟩
      have h3 : ⌊(2 / 3 : ℚ) * 3⌋ = 2 := by norm_num
      simp [pickNextColor, h3]

/-- Witness for C8 at the concrete draw one half with previous category R. -/
theorem pickNextColor_no_repeat_witness :
    pickNextColor (1 / 2) (some Color.R) ≠ Color.R :=
  pickNextColor_no_repeat.1 Color.R (1 / 2) (by norm_num) (by norm_num)

/-- Claim C9: reading the history never fails — it is empty on an absent
store, on a parse failure and on a parsed non-array — and writing replaces
the store with the new summary prepended to the previously stored list and
truncated to length 5, so a read after a write returns at most 5 summaries
with the new one first (most-recent-first order). -/
theorem top5_persistence (store : Option StoreVal) (s5 : SessionSummary) :
    loadTop5 none = [] ∧
    loadTop5 (some StoreVal.corrupt) = [] ∧
    loadTop5 (some StoreVal.notArray) = [] ∧
    persistTop5 store s5 = some (StoreVal.arr ((s5 :: loadTop5 store).take 5)) ∧
    (loadTop5 (persistTop5 store s5)).length ≤ 5 ∧
    (loadTop5 (persistTop5 store s5)).head? = some s5 := by
  refine ⟨rfl, rfl, rfl, rfl, ?_, ?_⟩
  · simp [persistTop5, loadTop5, trimTo5]
  · simp [persistTop5, loadTop5, trimTo5]

/- A missed trial that also carries a response, a latency and the correct
flag, to exercise the precedence of `missed` over all of them. -/
def missedTrial : Trial :=
  { color := Color.R
    onset := 0
    respondedAt := some 250
    rt := some 250
    correct := true
    premature := false
    wrongKey := none
    missed := true }

/-- Witness for C10: appending a missed trial (that even carries a response
and the correct flag) adds one miss and leaves the correct counter and the
latency samples unchanged. -/
theorem computeStats_missed_precedence_witness :
    (computeStats ([] ++ [missedTrial])).misses = (computeStats []).misses + 1 ∧
    (computeStats ([] ++ [missedTrial])).correct = (computeStats []).correct ∧
    (computeStats ([] ++ [missedTrial])).rtSamples = (computeStats []).rtSamples :=
  ⟨(computeStats_missed_precedence [] missedTrial rfl).1,
    (computeStats_missed_precedence [] missedTrial rfl).2.1,
    (computeStats_missed_precedence [] missedTrial rfl).2.2.2.1⟩
